import Mathlib

/-!
Verification development for the `web-thread` repository.

We shallowly embed the resource pool (`pool/src/pool.rs` and
`pool/src/lib.rs`), the wasm-backend dispatch (`src/lib.rs`), and the
in-process shim (`shim/src/lib.rs`), and prove the specified
properties about these embeddings.
-/

namespace WebThread

/-! ## The resource pool

From `src/pool/src/pool.rs` (generic `Pool<T, F>`) and
`src/pool/src/lib.rs` (the `Thread` pool — the same algorithm with
`T = web_thread::Thread`).  The state consists of:
* `capacity` — the bound fixed at `Pool::new`;
* `resources` — the backing `Vec<T>` of created slots, indexed by `Id`;
* `queue` — the contents of the flume unbounded channel of available
  slot indices (head = next index `recv` returns);
* `guards` — the multiset of slot indices claimed by outstanding
  guards (a `Guard` object exists for each entry).
An `FnMut() -> T` factory is embedded as a function of the slot index
it is about to create (its call number). -/

structure PoolState (T : Type) where
  capacity : Nat
  resources : List T
  queue : List Nat
  guards : List Nat
deriving DecidableEq

/-- From `Pool::new(capacity, factory)`: `Vec::with_capacity` is empty,
the flume channel starts empty, and no guard exists. -/
def Pool.new (T : Type) (capacity : Nat) : PoolState T :=
  ⟨capacity, [], [], []⟩

/-- A `Guard`: the reference into the slot plus the slot index.
The sender half it also carries is part of the pool state here. -/
structure Guard (T : Type) where
  resource : T
  id : Nat
deriving DecidableEq

/-- Result of one call to `Pool::get`.  `blocked` is the state in which
the caller is suspended in `recv_async().await`; `panicked` stands for
the `panic!` paths (`resources[id]` out of bounds, or the
`expect("we hold a sender")`). -/
inductive GetResult (T : Type) where
  | acquired (g : Guard T) (s : PoolState T)
  | blocked (s : PoolState T)
  | panicked
deriving DecidableEq

/-- From `Pool::get` (`pool.rs` lines 117–154, and the `Id`-returning
variant in `lib.rs` lines 71–88):
1. `self.receiver.try_recv().ok()` — non-blocking pop;
2. otherwise, under the creation lock, if `len < capacity`, run the
   factory, push the new resource, take `id = len`;
3. otherwise suspend in `recv_async().await`;
finally build the guard from `&resources[id]`. -/
def Pool.get {T : Type} (factory : Nat → T) (s : PoolState T) : GetResult T :=
  match s.queue with
  | id :: rest =>
    match s.resources[id]? with
    | some r => .acquired ⟨r, id⟩ { s with queue := rest, guards := id :: s.guards }
    | none => .panicked
  | [] =>
    if s.resources.length < s.capacity then
      let len := s.resources.length
      .acquired ⟨factory len, len⟩
        { s with resources := s.resources ++ [factory len], guards := len :: s.guards }
    else
      .blocked s

/-- Result of `flume::Sender::send`: `Ok` appends to the channel,
`Err(SendError)` when the receiver (the pool) is gone. -/
inductive SendResult where
  | ok
  | err
deriving DecidableEq

/-- The flume unbounded send used by the guard destructors: succeeds and
enqueues iff the pool (the receiver) is still alive. -/
def flumeSend (alive : Bool) (q : List Nat) (id : Nat) : SendResult × List Nat :=
  if alive then (.ok, q ++ [id]) else (.err, q)

/-- From `impl Drop for Guard` / `impl Drop for ResourceHandle`:
`let _ = self.sender.send(self.id);` — the send result is discarded,
so the drop returns normally whether or not the pool is still alive. -/
def guardDropSend (alive : Bool) (q : List Nat) (id : Nat) : List Nat :=
  (flumeSend alive q id).2

/-- Dropping a guard on a live pool: its index is sent back onto the
availability queue and the guard object ceases to exist. -/
def Pool.dropGuard {T : Type} (s : PoolState T) (id : Nat) : PoolState T :=
  { s with queue := guardDropSend true s.queue id, guards := s.guards.erase id }

/-- One concurrent step of the pool protocol.  `acquire` is a completed
`Pool::get` call; `grow` is the creation branch taken by a caller whose
earlier `try_recv` missed (the lock section does not re-check the
queue, so growth can interleave with sends); `dropg` is a guard being
dropped. -/
inductive Step {T : Type} (factory : Nat → T) : PoolState T → PoolState T → Prop where
  | acquire {s s' : PoolState T} {g : Guard T} :
      Pool.get factory s = .acquired g s' → Step factory s s'
  | grow {s : PoolState T} :
      s.resources.length < s.capacity →
      Step factory s
        { s with resources := s.resources ++ [factory s.resources.length],
                 guards := s.resources.length :: s.guards }
  | dropg {s : PoolState T} {id : Nat} :
      id ∈ s.guards → Step factory s (Pool.dropGuard s id)

/-- States reachable from some freshly constructed pool. -/
inductive Reachable {T : Type} (factory : Nat → T) : PoolState T → Prop where
  | init (capacity : Nat) : Reachable factory (Pool.new T capacity)
  | step {s s' : PoolState T} :
      Reachable factory s → Step factory s s' → Reachable factory s'

/-- The pool invariant: the slot count respects the capacity, and the
queued indices together with the indices held by outstanding guards
are a permutation of the created slot indices — each created slot is
either queued exactly once or checked out exactly once. -/
def PoolInv {T : Type} (s : PoolState T) : Prop :=
  s.resources.length ≤ s.capacity ∧
  (s.queue ++ s.guards).Perm (List.range s.resources.length)

/-! ## Owned guards

From `OwnedGuard` in `src/pool/src/pool.rs`.  `OwnedGuard::new` wraps
the plain guard in `ManuallyDrop` (so the inner destructor never
runs and sends nothing), copies its `resource` reference and `id`, and
moves the sender out with `ptr::read`.  The `Arc<dyn Type>` that keeps
the pool alive has no observable content here. -/

structure OwnedGuard (T : Type) where
  resource : T
  id : Nat
deriving DecidableEq

/-- From `OwnedGuard::new(pool, guard)`: field-by-field transfer out of
the `ManuallyDrop`-wrapped guard. -/
def OwnedGuard.new {T : Type} (guard : Guard T) : OwnedGuard T :=
  ⟨guard.resource, guard.id⟩

/-- Result of `Pool::get_owned`. -/
inductive OwnedGetResult (T : Type) where
  | acquired (o : OwnedGuard T) (s : PoolState T)
  | blocked (s : PoolState T)
  | panicked
deriving DecidableEq

/-- From `Pool::get_owned`: `self.get().await` followed by
`OwnedGuard::new`.  Because the inner guard is `ManuallyDrop`-wrapped,
the conversion itself changes no pool state (no index is sent). -/
def Pool.get_owned {T : Type} (factory : Nat → T) (s : PoolState T) :
    OwnedGetResult T :=
  match Pool.get factory s with
  | .acquired g s' => .acquired (OwnedGuard.new g) s'
  | .blocked s' => .blocked s'
  | .panicked => .panicked

/-- From `impl Drop for OwnedGuard`: `let _ = self.sender.send(self.id);`
— identical to the drop of the plain guard. -/
def OwnedGuard.drop {T : Type} (s : PoolState T) (o : OwnedGuard T) : PoolState T :=
  Pool.dropGuard s o.id

/-! ## The pool-backed dispatcher

From `Pool::run` / `Pool::run_send` in `src/pool/src/lib.rs`: acquire
a slot index with `self.get().await`, immediately call `run` on
`threads[id]` (starting the job), and wrap the inner task together
with a `ResourceHandle { id, sender }` whose `Drop` sends `id` back.
The composite `Guard<F>` future polls only the inner future; the
handle is released exactly when the composite task value is dropped,
resolved or not. -/

structure PoolTask where
  id : Nat
deriving DecidableEq

inductive PoolRunResult (T : Type) where
  | started (t : PoolTask) (s : PoolState T)
  | blocked (s : PoolState T)
  | panicked
deriving DecidableEq

/-- From `Pool::run` (and `run_send`, which differs only in the inner
task type): `let id = self.get().await;` then build the guard-future
around `threads[id].run(context, code)`. -/
def Pool.run {T : Type} (factory : Nat → T) (s : PoolState T) : PoolRunResult T :=
  match Pool.get factory s with
  | .acquired g s' => .started ⟨g.id⟩ s'
  | .blocked s' => .blocked s'
  | .panicked => .panicked

/-- Dropping the composite task drops its `ResourceHandle`, which sends
the slot index back onto the availability queue. -/
def PoolTask.drop {T : Type} (s : PoolState T) (t : PoolTask) : PoolState T :=
  Pool.dropGuard s t.id

/-! ## The wasm-backend dispatch (`src/src/lib.rs`)

`Thread::run` is embedded over abstract types `Ctx` (the Rust context
value), `J` (`JsValue`) and `S` (`serde_wasm_bindgen::Error`); the
codec enters as the function arguments `toJs` (serialization) and
`transferables` (the transfer list). -/

/-- The crate error type of `src/src/lib.rs` (`Error::Serialization`
and `Error::Js`). -/
inductive WebError (S J : Type) where
  | serialization (e : S)
  | js (v : J)
deriving DecidableEq

/-- Observable outcome of one `Thread::run` call on the wasm backend:
either the `future::Either::Left` branch — a task resolving
immediately to an error, the worker untouched — or the
`future::Either::Right` branch after `Client.run` (the submit
primitive of the worker) was invoked with the code handle, the serialized
context, and the transfer list. -/
inductive WebRunResult (S J : Type) where
  | immediate (e : WebError S J)
  | submitted (codeVal : J) (ctxVal : J) (transfer : List J)
deriving DecidableEq

/-- From `Thread::run` (`src/src/lib.rs` lines 137–158): compute the
transfer list, serialize the context (returning the `Left` future on
failure), then hand code, context and transfer list to `Client.run`. -/
def Thread.run {Ctx S J : Type} (toJs : Ctx → Except S J)
    (transferables : Ctx → List J) (codeVal : J) (context : Ctx) :
    WebRunResult S J :=
  let transfer := transferables context
  match toJs context with
  | .error e => .immediate (.serialization e)
  | .ok ctxVal => .submitted codeVal ctxVal transfer

/-! ## The one-shot remote callable (`Code`, `src/src/lib.rs`)

`Code` holds `Option<Box<RemoteTask>>`; `call_once` takes the option
out, panicking via `expect("code called more than once")` when it is
already `None`.  The behaviour of the callable is abstracted as a function
`A → B`. -/

structure Code (A B : Type) where
  code : Option (A → B)

/-- From `Code::new`: the wrapped callable is stored as `Some`. -/
def Code.new {A B : Type} (f : A → B) : Code A B :=
  ⟨some f⟩

/-- Outcome of `Code::call_once`: the computed value, or the fatal
`expect` assertion. -/
inductive CallResult (B : Type) where
  | ok (b : B)
  | panic (msg : String)

/-- From `Code::call_once(mut self, context)`:
`self.code.take().expect("code called more than once")(context)`.
The second component is the state of `self.code` after `take()`. -/
def Code.call_once {A B : Type} (c : Code A B) (context : A) :
    CallResult B × Code A B :=
  match c.code with
  | some f => (.ok (f context), ⟨none⟩)
  | none => (.panic "code called more than once", ⟨none⟩)

/-! ## The in-process shim (`src/shim/src/lib.rs`) -/

/-- State of a `futures::channel::oneshot` channel as seen by the
receiver: the sender has not acted yet, has sent a value, or was
dropped without sending (`Canceled`). -/
inductive OneshotState (T : Type) where
  | waiting
  | sent (v : T)
  | canceled
deriving DecidableEq

inductive Poll (A : Type) where
  | pending
  | ready (a : A)
deriving DecidableEq

/-- The `futures::channel::oneshot::Canceled` unit error. -/
inductive Canceled where
  | mk
deriving DecidableEq

/-- Polling a oneshot receiver. -/
def oneshotPoll {T : Type} : OneshotState T → Poll (Except Canceled T)
  | .waiting => .pending
  | .sent v => .ready (.ok v)
  | .canceled => .ready (.error .mk)

/-- The shim error enum: `Error::Killed(#[from] oneshot::Canceled)`,
"thread killed before task completed". -/
inductive ShimError where
  | killed (c : Canceled)
deriving DecidableEq

/-- From `impl Future for Task` (`shim/src/lib.rs` lines 63–69):
`self.receiver.poll_unpin(context).map(|ready| ready.map_err(Into::into))`.
`SendTask::poll` delegates to this. -/
def Task.poll {T : Type} (st : OneshotState T) : Poll (Except ShimError T) :=
  match oneshotPoll st with
  | .pending => .pending
  | .ready r => .ready (r.mapError ShimError.killed)

/-- Destroying the shim worker (dropping the `Thread` ends the receive
loop; the executor and every pending spawned job are dropped, and with
them the oneshot senders): a pending channel becomes canceled, a
delivered result is unaffected. -/
def senderDrop {T : Type} : OneshotState T → OneshotState T
  | .waiting => .canceled
  | .sent v => .sent v
  | .canceled => .canceled

/-- Result of `receiver.next().await` on the request channel
(`mpsc::unbounded`) of the shim worker: the queued request, or pending when
a sender is still alive, or `None` (loop exit) once every sender is
dropped and the queue is drained. -/
inductive NextResult (R : Type) where
  | item (r : R)
  | pending
  | closed
deriving DecidableEq

def mpscNext {R : Type} (sendersAlive : Bool) (q : List R) : NextResult R :=
  match q with
  | r :: _ => .item r
  | [] => if sendersAlive then .pending else .closed

/-- The `mpsc::UnboundedSender::unbounded_send` used by the shim
`Thread::run`: succeeds and enqueues iff the receiver (the receive
loop of the worker) is still alive. -/
def unboundedSend {R : Type} (receiverAlive : Bool) (q : List R) (r : R) :
    Except Unit (List R) :=
  if receiverAlive then .ok (q ++ [r]) else .error ()

/-- Observable outcome of the shim `Thread::run`: the `Task` is
returned (its oneshot starts `waiting`), or the
the worker-death panic in the
`unwrap_or_else` fires (its message says the worker should not die
unless dropped).  The function has no error return. -/
inductive ShimRunResult (R : Type) where
  | ok (queued : List R)
  | panicked
deriving DecidableEq

/-- From the shim `Thread::run` (`shim/src/lib.rs` lines 94–111): build
the oneshot, `unbounded_send` the boxed request, and panic — rather
than return an error — if the send fails. -/
def shimThreadRun {R : Type} (receiverAlive : Bool) (q : List R) (req : R) :
    ShimRunResult R :=
  match unboundedSend receiverAlive q req with
  | .ok q' => .ok q'
  | .error _ => .panicked

/-! ## Invariant preservation and consequences -/

theorem poolInv_new {T : Type} (capacity : Nat) : PoolInv (Pool.new T capacity) := by
  constructor
  · simp [Pool.new]
  · simp [Pool.new]

theorem poolInv_step {T : Type} {factory : Nat → T} {s s' : PoolState T}
    (hs : PoolInv s) (hstep : Step factory s s') : PoolInv s' := by
  obtain ⟨hcap, hperm⟩ := hs
  cases hstep with
  | acquire hget =>
    unfold Pool.get at hget
    split at hget
    next id rest hq =>
      split at hget
      next r hr =>
        cases hget
        refine ⟨hcap, ?_⟩
        refine List.Perm.trans List.perm_middle ?_
        rw [← List.cons_append, ← hq]
        exact hperm
      next => exact (GetResult.noConfusion hget)
    next hq =>
      split at hget
      next hlen =>
        cases hget
        refine ⟨by simp only [List.length_append, List.length_singleton]; omega, ?_⟩
        rw [hq, List.nil_append] at hperm
        simp only [hq, List.nil_append, List.length_append, List.length_singleton,
          List.range_succ]
        exact List.Perm.trans (List.Perm.cons _ hperm)
          (List.perm_append_singleton _ _).symm
      next => exact (GetResult.noConfusion hget)
  | grow hlen =>
    refine ⟨by simp only [List.length_append, List.length_singleton]; omega, ?_⟩
    simp only [List.length_append, List.length_singleton, List.range_succ]
    refine List.Perm.trans List.perm_middle ?_
    exact List.Perm.trans (List.Perm.cons _ hperm)
      (List.perm_append_singleton _ _).symm
  | dropg hmem =>
    refine ⟨hcap, ?_⟩
    show ((s.queue ++ [_]) ++ s.guards.erase _).Perm _
    rw [List.append_assoc, List.singleton_append]
    refine List.Perm.trans ?_ hperm
    exact List.Perm.append_left s.queue (List.perm_cons_erase hmem).symm

theorem reachable_inv {T : Type} {factory : Nat → T} {s : PoolState T}
    (h : Reachable factory s) : PoolInv s := by
  induction h with
  | init capacity => exact poolInv_new capacity
  | step _ hstep ih => exact poolInv_step ih hstep

theorem poolInv_count {T : Type} {s : PoolState T} (hs : PoolInv s) (id : Nat) :
    s.queue.count id + s.guards.count id =
      if id < s.resources.length then 1 else 0 := by
  have h := hs.2.count_eq id
  rw [List.count_append] at h
  rw [h]
  by_cases hid : id < s.resources.length
  · rw [if_pos hid]
    exact List.count_eq_one_of_mem (List.nodup_range _) (List.mem_range.mpr hid)
  · rw [if_neg hid]
    exact List.count_eq_zero_of_not_mem (fun hmem => hid (List.mem_range.mp hmem))

theorem poolInv_length {T : Type} {s : PoolState T} (hs : PoolInv s) :
    s.queue.length + s.guards.length = s.resources.length := by
  have h := hs.2.length_eq
  rwa [List.length_append, List.length_range] at h

theorem poolInv_guard_lt {T : Type} {s : PoolState T} (hs : PoolInv s) {id : Nat}
    (hmem : id ∈ s.guards) : id < s.resources.length := by
  have hc := poolInv_count hs id
  have hpos : 0 < s.guards.count id := List.count_pos_iff.mpr hmem
  by_contra hlt
  rw [if_neg hlt] at hc
  omega

theorem poolInv_guard_not_queued {T : Type} {s : PoolState T} (hs : PoolInv s)
    {id : Nat} (hmem : id ∈ s.guards) : id ∉ s.queue := by
  intro hq
  have hc := poolInv_count hs id
  have h1 : 0 < s.guards.count id := List.count_pos_iff.mpr hmem
  have h2 : 0 < s.queue.count id := List.count_pos_iff.mpr hq
  by_cases hid : id < s.resources.length
  · rw [if_pos hid] at hc; omega
  · rw [if_neg hid] at hc; omega

theorem poolInv_queue_lt {T : Type} {s : PoolState T} (hs : PoolInv s) {id : Nat}
    (hmem : id ∈ s.queue) : id < s.resources.length := by
  have hc := poolInv_count hs id
  have hpos : 0 < s.queue.count id := List.count_pos_iff.mpr hmem
  by_contra hlt
  rw [if_neg hlt] at hc
  omega

/-- Branch 1 of `Pool::get`: the non-blocking `try_recv` pop succeeds
and the guard for the queue head is returned immediately. -/
theorem get_eq_pop {T : Type} (factory : Nat → T) {s : PoolState T} {id : Nat}
    {rest : List Nat} {r : T} (hq : s.queue = id :: rest)
    (hr : s.resources[id]? = some r) :
    Pool.get factory s =
      .acquired ⟨r, id⟩ { s with queue := rest, guards := id :: s.guards } := by
  simp [Pool.get, hq, hr]

/-- Branch 2 of `Pool::get`: nothing queued and the slot count is below
`capacity` — the factory runs, the new resource is appended, and the
guard for the new index (the old length) is returned. -/
theorem get_eq_grow {T : Type} (factory : Nat → T) {s : PoolState T}
    (hq : s.queue = []) (hlen : s.resources.length < s.capacity) :
    Pool.get factory s =
      .acquired ⟨factory s.resources.length, s.resources.length⟩
        { s with resources := s.resources ++ [factory s.resources.length],
                 guards := s.resources.length :: s.guards } := by
  simp [Pool.get, hq, hlen]

/-- Branch 3 of `Pool::get`: nothing queued and the pool is at capacity
— the caller suspends in `recv_async().await`. -/
theorem get_eq_blocked {T : Type} (factory : Nat → T) {s : PoolState T}
    (hq : s.queue = []) (hlen : ¬ s.resources.length < s.capacity) :
    Pool.get factory s = .blocked s := by
  simp [Pool.get, hq, hlen]

/-- On any state satisfying the invariant, `Pool::get` takes one of the
two legitimate exits: it acquires a guard or suspends.  Neither panic
path (`resources[id]` out of bounds; the final `expect`) is reachable,
and there is no capacity-error exit at all. -/
theorem get_acquired_or_blocked {T : Type} (factory : Nat → T) {s : PoolState T}
    (hs : PoolInv s) :
    (∃ g s', Pool.get factory s = .acquired g s') ∨ Pool.get factory s = .blocked s := by
  cases hq : s.queue with
  | cons id rest =>
    have hlt : id < s.resources.length :=
      poolInv_queue_lt hs (hq ▸ List.mem_cons_self id rest)
    exact .inl ⟨_, _, get_eq_pop factory hq (List.getElem?_eq_getElem hlt)⟩
  | nil =>
    by_cases hlen : s.resources.length < s.capacity
    · exact .inl ⟨_, _, get_eq_grow factory hq hlen⟩
    · exact .inr (get_eq_blocked factory hq hlen)

/-- A `Pool::get` with a non-empty availability queue acquires the queue
head without blocking and without growing (used for the wake-up after a
guard drop). -/
theorem get_acquired_of_queue_ne_nil {T : Type} (factory : Nat → T) {s : PoolState T}
    (hs : PoolInv s) (hq : s.queue ≠ []) :
    ∃ g s', Pool.get factory s = .acquired g s' ∧ s'.resources = s.resources := by
  cases hql : s.queue with
  | cons id rest =>
    have hlt : id < s.resources.length :=
      poolInv_queue_lt hs (hql ▸ List.mem_cons_self id rest)
    exact ⟨_, _, get_eq_pop factory hql (List.getElem?_eq_getElem hlt), rfl⟩
  | nil => exact absurd hql hq

/-- Whenever `Pool::get` returns a guard, the new state records the
guard index as outstanding. -/
theorem get_acquired_mem_guards {T : Type} {factory : Nat → T}
    {s s' : PoolState T} {g : Guard T}
    (hget : Pool.get factory s = .acquired g s') : g.id ∈ s'.guards := by
  unfold Pool.get at hget
  split at hget
  next id rest hq =>
    split at hget
    next r hr =>
      cases hget
      exact List.mem_cons_self _ _
    next => exact (GetResult.noConfusion hget)
  next hq =>
    split at hget
    next hlen =>
      cases hget
      exact List.mem_cons_self _ _
    next => exact (GetResult.noConfusion hget)

/-! ## The claims -/

/-- Claim C1: every `Pool::get` call proceeds in order — a non-blocking
pop from the availability queue first, returning the guard for a queued
index immediately; otherwise, when the slot count is below `capacity`,
a new worker is constructed, appended as a new slot, and the guard for
the new index is returned; only when neither applies does the call
await the async receive.  On reachable states acquire never fails: it
either returns a guard or blocks — there is no capacity error. -/
theorem pool_get_order {T : Type} (factory : Nat → T) (s : PoolState T) :
    (∀ id rest r, s.queue = id :: rest → s.resources[id]? = some r →
      Pool.get factory s =
        .acquired ⟨r, id⟩ { s with queue := rest, guards := id :: s.guards }) ∧
    (s.queue = [] → s.resources.length < s.capacity →
      Pool.get factory s =
        .acquired ⟨factory s.resources.length, s.resources.length⟩
          { s with resources := s.resources ++ [factory s.resources.length],
                   guards := s.resources.length :: s.guards }) ∧
    (s.queue = [] → ¬ s.resources.length < s.capacity →
      Pool.get factory s = .blocked s) ∧
    (Reachable factory s →
      (∃ g s', Pool.get factory s = .acquired g s') ∨
        Pool.get factory s = .blocked s) := by
  refine ⟨fun id rest r hq hr => get_eq_pop factory hq hr,
    fun hq hlen => get_eq_grow factory hq hlen,
    fun hq hlen => get_eq_blocked factory hq hlen,
    fun hreach => get_acquired_or_blocked factory (reachable_inv hreach)⟩

theorem pool_get_order_witness :
    Pool.get (fun n => n + 3) (Pool.new Nat 2) =
      .acquired ⟨3, 0⟩ ⟨2, [3], [], [0]⟩ ∧
    Pool.get (fun n => n + 3) ⟨1, [5], [], [0]⟩ = .blocked ⟨1, [5], [], [0]⟩ ∧
    Pool.get (fun n => n + 3) ⟨1, [5], [0], []⟩ =
      .acquired ⟨5, 0⟩ ⟨1, [5], [], [0]⟩ := by
  refine ⟨?_, ?_, ?_⟩
  · exact (pool_get_order (fun n => n + 3) (Pool.new Nat 2)).2.1 rfl (by decide)
  · exact (pool_get_order (fun n => n + 3) ⟨1, [5], [], [0]⟩).2.2.1 rfl (by decide)
  · exact (pool_get_order (fun n => n + 3) ⟨1, [5], [0], []⟩).1 0 [] 5 rfl rfl

/-- Claim C2: a freshly constructed pool has zero workers; in every
reachable state the number of created slots never exceeds the capacity
(and slots are only ever appended, so no run constructs more than
`capacity` workers in total) and at most `capacity` guards are
outstanding; with all `capacity` guards outstanding a further acquire
blocks, and after some guard is dropped an acquire succeeds again
without growing. -/
theorem pool_capacity_invariant {T : Type} (factory : Nat → T) :
    (∀ N, (Pool.new T N).resources.length = 0) ∧
    (∀ s, Reachable factory s →
      s.resources.length ≤ s.capacity ∧ s.guards.length ≤ s.capacity) ∧
    (∀ s, Reachable factory s → s.guards.length = s.capacity →
      Pool.get factory s = .blocked s) ∧
    (∀ s id, Reachable factory s → id ∈ s.guards →
      ∃ g s', Pool.get factory (Pool.dropGuard s id) = .acquired g s' ∧
        s'.resources = s.resources) := by
  refine ⟨fun N => rfl, ?_, ?_, ?_⟩
  · intro s hreach
    have hinv := reachable_inv hreach
    have hcap := hinv.1
    have hlen := poolInv_length hinv
    exact ⟨hcap, by omega⟩
  · intro s hreach hfull
    have hinv := reachable_inv hreach
    have hcap := hinv.1
    have hlen := poolInv_length hinv
    have hq : s.queue = [] := by
      have : s.queue.length = 0 := by omega
      exact List.length_eq_zero.mp this
    exact get_eq_blocked factory hq (by omega)
  · intro s id hreach hmem
    have hreach' : Reachable factory (Pool.dropGuard s id) :=
      .step hreach (.dropg hmem)
    have hinv' := reachable_inv hreach'
    have hq : (Pool.dropGuard s id).queue ≠ [] := by
      show s.queue ++ [id] ≠ []
      simp
    exact get_acquired_of_queue_ne_nil factory hinv' hq

theorem pool_capacity_invariant_witness :
    (Pool.new Nat 1).resources.length = 0 ∧
    (⟨1, [3], [], [0]⟩ : PoolState Nat).guards.length ≤ 1 ∧
    Pool.get (fun n => n + 3) ⟨1, [3], [], [0]⟩ = .blocked ⟨1, [3], [], [0]⟩ ∧
    (∃ g s', Pool.get (fun n => n + 3) (Pool.dropGuard ⟨1, [3], [], [0]⟩ 0) =
        .acquired g s' ∧ s'.resources = [3]) := by
  have hreach : Reachable (fun n => n + 3) (⟨1, [3], [], [0]⟩ : PoolState Nat) :=
    .step (.init 1) (@Step.acquire Nat (fun n => n + 3) (Pool.new Nat 1) ⟨1, [3], [], [0]⟩ ⟨3, 0⟩ (by decide))
  refine ⟨(pool_capacity_invariant (fun n => n + 3)).1 1,
    ((pool_capacity_invariant (fun n => n + 3)).2.1 _ hreach).2,
    (pool_capacity_invariant (fun n => n + 3)).2.2.1 _ hreach rfl,
    ?_⟩
  obtain ⟨g, s', h1, h2⟩ :=
    (pool_capacity_invariant (fun n => n + 3)).2.2.2 _ 0 hreach (by decide)
  exact ⟨g, s', h1, h2⟩

/-- Claim C3: in every reachable pool state each created slot index is
either queued exactly once or checked out exactly once (queue count
plus guard count equals one), and uncreated indices appear nowhere;
dropping a guard appends its index to the availability queue exactly
once, changing no other count; and when the pool is already torn down
the failed send of the drop is silently discarded (the drop still
completes, the queue is unchanged). -/
theorem pool_slot_conservation {T : Type} (factory : Nat → T) :
    (∀ s, Reachable factory s → ∀ id, id < s.resources.length →
      s.queue.count id + s.guards.count id = 1) ∧
    (∀ s, Reachable factory s → ∀ id, ¬ id < s.resources.length →
      s.queue.count id + s.guards.count id = 0) ∧
    (∀ (s : PoolState T) id, (Pool.dropGuard s id).queue = s.queue ++ [id] ∧
      (Pool.dropGuard s id).queue.count id = s.queue.count id + 1 ∧
      ∀ j, j ≠ id → (Pool.dropGuard s id).queue.count j = s.queue.count j) ∧
    (∀ q id, guardDropSend false q id = q) := by
  refine ⟨?_, ?_, ?_, fun q id => rfl⟩
  · intro s hreach id hid
    have h := poolInv_count (reachable_inv hreach) id
    rwa [if_pos hid] at h
  · intro s hreach id hid
    have h := poolInv_count (reachable_inv hreach) id
    rwa [if_neg hid] at h
  · intro s id
    refine ⟨rfl, ?_, ?_⟩
    · show (s.queue ++ [id]).count id = s.queue.count id + 1
      simp [List.count_append]
    · intro j hj
      show (s.queue ++ [id]).count j = s.queue.count j
      simp [List.count_append, List.count_singleton, hj]

theorem pool_slot_conservation_witness :
    ((⟨1, [3], [], [0]⟩ : PoolState Nat).queue.count 0 +
      (⟨1, [3], [], [0]⟩ : PoolState Nat).guards.count 0 = 1) ∧
    (Pool.dropGuard (⟨1, [3], [], [0]⟩ : PoolState Nat) 0).queue = [0] ∧
    guardDropSend false [0] 7 = [0] := by
  have hreach : Reachable (fun n => n + 3) (⟨1, [3], [], [0]⟩ : PoolState Nat) :=
    .step (.init 1) (@Step.acquire Nat (fun n => n + 3) (Pool.new Nat 1) ⟨1, [3], [], [0]⟩ ⟨3, 0⟩ (by decide))
  refine ⟨(pool_slot_conservation (fun n => n + 3)).1 _ hreach 0 (by decide), ?_, ?_⟩
  · exact ((pool_slot_conservation (fun n => n + 3)).2.2.1 ⟨1, [3], [], [0]⟩ 0).1
  · exact (pool_slot_conservation (fun n => n + 3)).2.2.2 [0] 7

/-- Claim C4: for every context value whose serialization fails, the
wasm `Thread::run` returns the immediately-resolving task carrying
exactly that serialization error, and `Client.run` — the submit
primitive of the worker — is never invoked for that call: no job or
context reaches the worker. -/
theorem thread_run_serialization_error {Ctx S J : Type}
    (toJs : Ctx → Except S J) (transferables : Ctx → List J)
    (codeVal : J) (context : Ctx) {e : S} (h : toJs context = .error e) :
    Thread.run toJs transferables codeVal context =
      .immediate (.serialization e) ∧
    ∀ c x tl, Thread.run toJs transferables codeVal context ≠ .submitted c x tl := by
  constructor
  · simp [Thread.run, h]
  · intro c x tl hcontra
    simp [Thread.run, h] at hcontra

theorem thread_run_serialization_error_witness :
    Thread.run (fun _ : Nat => (.error 42 : Except Nat Nat)) (fun _ => [])
        9 5 = .immediate (.serialization 42) ∧
    ∀ c x tl,
      Thread.run (fun _ : Nat => (.error 42 : Except Nat Nat)) (fun _ => [])
        9 5 ≠ .submitted c x tl :=
  thread_run_serialization_error (fun _ : Nat => (.error 42 : Except Nat Nat))
    (fun _ => []) 9 5 rfl

/-- Claim C5: the wrapped one-shot callable, invoked once, yields the
computed output of the job exactly once and leaves the stored code
consumed; invoking the same wrapped callable a second time hits the
fatal `expect` assertion of `Code::call_once` (message: code called
more than once) and never silently produces a second result. -/
theorem code_call_once_single_shot {A B : Type} (f : A → B) (x y : A) :
    (Code.call_once (Code.new f) x).1 = .ok (f x) ∧
    ((Code.call_once (Code.new f) x).2).code = none ∧
    (Code.call_once (Code.call_once (Code.new f) x).2 y).1 =
      .panic "code called more than once" ∧
    ∀ b, (Code.call_once (Code.call_once (Code.new f) x).2 y).1 ≠ .ok b := by
  refine ⟨rfl, rfl, rfl, ?_⟩
  intro b hcontra
  exact CallResult.noConfusion hcontra

theorem code_call_once_single_shot_witness :
    (Code.call_once (Code.new (fun n : Nat => n + 5)) 3).1 = .ok 8 ∧
    (Code.call_once (Code.call_once (Code.new (fun n : Nat => n + 5)) 3).2 3).1 =
      .panic "code called more than once" :=
  ⟨(code_call_once_single_shot (fun n : Nat => n + 5) 3 3).1,
   (code_call_once_single_shot (fun n : Nat => n + 5) 3 3).2.2.1⟩

/-- Claim C6: the dispatcher `Pool::run` (and `run_send`, identical but
for the inner task type) acquires a worker slot before the job is
started — a started task records the index just acquired and that
index is outstanding in the post-acquire state; in every reachable
state an index held by a live task (or guard) is never on the
availability queue, so the worker cannot be reused while the composite
task is held; and dropping the task — resolved or not — sends the
index back exactly once. -/
theorem pool_run_guard_lifetime {T : Type} (factory : Nat → T) :
    (∀ s t s', Pool.run factory s = .started t s' →
      (∃ g, Pool.get factory s = .acquired g s' ∧ g.id = t.id) ∧
        t.id ∈ s'.guards) ∧
    (∀ s id, Reachable factory s → id ∈ s.guards → id ∉ s.queue) ∧
    (∀ (s : PoolState T) t, (PoolTask.drop s t).queue = s.queue ++ [t.id]) := by
  refine ⟨?_, ?_, fun s t => rfl⟩
  · intro s t s' hrun
    unfold Pool.run at hrun
    cases hget : Pool.get factory s with
    | acquired g s'' =>
      rw [hget] at hrun
      cases hrun
      exact ⟨⟨g, rfl, rfl⟩, get_acquired_mem_guards hget⟩
    | blocked s'' => rw [hget] at hrun; exact PoolRunResult.noConfusion hrun
    | panicked => rw [hget] at hrun; exact PoolRunResult.noConfusion hrun
  · intro s id hreach hmem
    exact poolInv_guard_not_queued (reachable_inv hreach) hmem

theorem pool_run_guard_lifetime_witness :
    (∃ t s', Pool.run (fun n => n + 3) (Pool.new Nat 1) = .started t s' ∧
      t.id ∈ s'.guards) ∧
    (0 : Nat) ∉ (⟨1, [3], [], [0]⟩ : PoolState Nat).queue ∧
    (PoolTask.drop (⟨1, [3], [], [0]⟩ : PoolState Nat) ⟨0⟩).queue = [0] := by
  have hreach : Reachable (fun n => n + 3) (⟨1, [3], [], [0]⟩ : PoolState Nat) :=
    .step (.init 1) (@Step.acquire Nat (fun n => n + 3) (Pool.new Nat 1) ⟨1, [3], [], [0]⟩ ⟨3, 0⟩ (by decide))
  have hrun : Pool.run (fun n => n + 3) (Pool.new Nat 1) =
      .started ⟨0⟩ ⟨1, [3], [], [0]⟩ := by decide
  refine ⟨⟨⟨0⟩, ⟨1, [3], [], [0]⟩, hrun, ?_⟩, ?_, ?_⟩
  · exact ((pool_run_guard_lifetime (fun n => n + 3)).1 _ _ _ hrun).2
  · exact (pool_run_guard_lifetime (fun n => n + 3)).2.1 _ 0 hreach (by decide)
  · exact (pool_run_guard_lifetime (fun n => n + 3)).2.2 ⟨1, [3], [], [0]⟩ ⟨0⟩

/-- Claim C8: `Pool::get_owned` yields a handle for the very slot the
underlying plain guard refers to — same index and same worker value —
with the conversion sending nothing back to the queue (the drop of the
inner guard is suppressed by `ManuallyDrop`); and for a reachable
acquire, dropping the owned guard releases the index exactly once: the
queue afterwards holds that index exactly one time. -/
theorem get_owned_single_release {T : Type} (factory : Nat → T) :
    (∀ (s : PoolState T) g s', Pool.get factory s = .acquired g s' →
      Pool.get_owned factory s = .acquired (OwnedGuard.new g) s' ∧
      (OwnedGuard.new g).id = g.id ∧
      (OwnedGuard.new g).resource = g.resource) ∧
    (∀ (s : PoolState T) g s', Reachable factory s →
      Pool.get factory s = .acquired g s' →
      (OwnedGuard.drop s' (OwnedGuard.new g)).queue.count g.id = 1) := by
  constructor
  · intro s g s' hget
    refine ⟨?_, rfl, rfl⟩
    unfold Pool.get_owned
    rw [hget]
  · intro s g s' hreach hget
    have hreach' : Reachable factory s' := .step hreach (.acquire hget)
    have hmem : g.id ∈ s'.guards := get_acquired_mem_guards hget
    have hnotq : g.id ∉ s'.queue :=
      poolInv_guard_not_queued (reachable_inv hreach') hmem
    have hzero : s'.queue.count g.id = 0 := List.count_eq_zero_of_not_mem hnotq
    show (s'.queue ++ [g.id]).count g.id = 1
    simp [List.count_append, hzero]

theorem get_owned_single_release_witness :
    Pool.get_owned (fun n => n + 3) (Pool.new Nat 1) =
      .acquired ⟨3, 0⟩ ⟨1, [3], [], [0]⟩ ∧
    (OwnedGuard.drop (⟨1, [3], [], [0]⟩ : PoolState Nat) ⟨3, 0⟩).queue.count 0 = 1 := by
  have hget : Pool.get (fun n => n + 3) (Pool.new Nat 1) =
      .acquired ⟨3, 0⟩ ⟨1, [3], [], [0]⟩ := by decide
  exact ⟨((get_owned_single_release (fun n => n + 3)).1 _ _ _ hget).1,
    (get_owned_single_release (fun n => n + 3)).2 _ _ _ (.init 1) hget⟩

/-- Claim C10: the shim `Thread::run` never returns a typed error to the
caller (its result is a `Task` or a panic — `ShimRunResult` has no
error constructor): while the receive loop of the worker is alive the
request is always enqueued; the receive loop never observes a closed
channel while the `Thread` value still holds its only sender; and if
the worker has nevertheless died, `run` panics (message: worker should
not die unless dropped) instead of returning an error. -/
theorem shim_run_no_typed_error {R : Type} (q : List R) (req : R) :
    shimThreadRun true q req = .ok (q ++ [req]) ∧
    (∀ pending : List R, mpscNext true pending ≠ .closed) ∧
    shimThreadRun false q req = .panicked := by
  refine ⟨rfl, ?_, rfl⟩
  intro pending h
  cases pending with
  | nil => simp [mpscNext] at h
  | cons a l => simp [mpscNext] at h

theorem shim_run_no_typed_error_witness :
    shimThreadRun true [] (7 : Nat) = .ok [7] ∧
    mpscNext true ([] : List Nat) ≠ .closed ∧
    shimThreadRun false [] (7 : Nat) = .panicked :=
  ⟨(shim_run_no_typed_error [] 7).1,
   (shim_run_no_typed_error [] 7).2.1 [],
   (shim_run_no_typed_error [] 7).2.2⟩

/-- Claim C7: when the worker (or its execution context) is destroyed
while a task is pending, the oneshot sender is dropped without a
result, and polling the shim task yields the ready
`Err(Error::Killed)` value — the severed-channel error from
`oneshot::Canceled` — rather than remaining pending; a result that was
already delivered is unaffected. -/
theorem task_poll_killed (T : Type) (v : T) :
    Task.poll (senderDrop (.waiting : OneshotState T)) =
      .ready (.error (.killed .mk)) ∧
    Task.poll (.canceled : OneshotState T) = .ready (.error (.killed .mk)) ∧
    Task.poll (senderDrop (.waiting : OneshotState T)) ≠ .pending ∧
    Task.poll (senderDrop (.sent v)) = .ready (.ok v) := by
  refine ⟨rfl, rfl, ?_, rfl⟩
  intro h
  exact Poll.noConfusion h

theorem task_poll_killed_witness :
    Task.poll (senderDrop (.waiting : OneshotState Nat)) =
      .ready (.error (.killed .mk)) ∧
    Task.poll (senderDrop (OneshotState.sent 8)) = .ready (.ok 8) :=
  ⟨(task_poll_killed Nat 8).1, (task_poll_killed Nat 8).2.2.2⟩

end WebThread
